import Mathlib

/-!
Shallow embedding of the collection-and-curation pipeline of the
`ai-info-bot2` repository: deduplication (`src/utils/deduplication.ts`),
relevance scoring and filtering (`src/utils/filtering.ts`), retry
(`src/utils/retry.ts`) and the collection orchestrator
(`ArticleCollectorService`).  JavaScript numbers are modelled as `ℚ`,
`Date` values are omitted (no claim concerns them), strings are Lean
`String`s processed through their character lists, and fallible
asynchronous operations are modelled in `Except`.
-/

/-! ## Basic string machinery -/

/-- Models `String.prototype.toLowerCase` on one character, for the ASCII and
fullwidth-Latin ranges (the only cased characters the pipeline's inputs use). -/
def toLowerJs (c : Char) : Char :=
  if 'A' ≤ c ∧ c ≤ 'Z' then Char.ofNat (c.toNat + 32)
  else if 0xFF21 ≤ c.toNat ∧ c.toNat ≤ 0xFF3A then Char.ofNat (c.toNat + 32)
  else c

/-- Models `String.prototype.toLowerCase`. -/
def lowerStr (s : String) : String :=
  String.mk (s.toList.map toLowerJs)

/-- `sub` occurs as a contiguous run in `l`. -/
def containsSeq (sub : List Char) : List Char → Bool
  | [] => sub.isEmpty
  | c :: rest => sub.isPrefixOf (c :: rest) || containsSeq sub rest

/-- Models `String.prototype.includes`: `sub` occurs contiguously in `text`. -/
def includesStr (text sub : String) : Bool :=
  containsSeq sub.toList text.toList

/-! ## Data model (`src/types/Article.ts`) -/

/-- One collected article.  `publishedAt` models the `Date` as an epoch
number; `score` is the optional source-native popularity number;
`relevanceScore` is the `ℚ` model of the JS float. -/
structure Article where
  id : String
  title : String
  url : String
  author : String
  publishedAt : Nat
  source : String
  tags : List String
  excerpt : Option String
  score : Option ℚ
  relevanceScore : ℚ
deriving DecidableEq

/-- `CollectionError` without its `Date` timestamp (no claim concerns it). -/
structure CollectionError where
  source : String
  error : String
deriving DecidableEq

/-- `CollectionResult` without its `Date` timestamp. -/
structure CollectionResult where
  articles : List Article
  errors : List CollectionError
deriving DecidableEq

/-! ## URL normalization (`DeduplicationService.normalizeUrl`)

The source calls the WHATWG `URL` builtin.  `UrlObj`/`parseUrl`/`serializeUrl`
model that builtin on the fragment it is used on here:
`scheme "://" host [path] ["?" query]`, the query being `&`-separated
`key=value` pairs, with `searchParams.delete` removing every pair with the
given key and serialization omitting the `?` when the query list is empty
(percent-encoding and other WHATWG details are outside the modelled
fragment).  A string without the `scheme "://" host` shape fails to parse,
which models the `URL` constructor throwing. -/

structure UrlObj where
  scheme : String
  host : String
  pathname : String
  query : List (String × String)
deriving DecidableEq

/-- Parse one `key=value` (or bare `key`) query component. -/
def parseQueryPair (l : List Char) : String × String :=
  match l.splitOn '=' with
  | [] => ("", "")
  | [k] => (String.mk k, "")
  | k :: v => (String.mk k, String.intercalate "=" (v.map String.mk))

/-- Models the WHATWG `URL` constructor on the fragment described above:
`some` components on success, `none` where the builtin would throw. -/
def parseUrl (s : String) : Option UrlObj :=
  let l := s.toList
  match l.splitOn ':' with
  | scheme :: rest =>
    if scheme.isEmpty ∨ ¬ scheme.all (fun c => c.isAlpha) then none
    else
      let afterScheme := (String.intercalate ":" (rest.map String.mk)).toList
      match afterScheme with
      | '/' :: '/' :: hostAndMore =>
        let host := hostAndMore.takeWhile (fun c => c ≠ '/' ∧ c ≠ '?')
        if host.isEmpty then none
        else
          let afterHost := hostAndMore.dropWhile (fun c => c ≠ '/' ∧ c ≠ '?')
          let path := afterHost.takeWhile (fun c => c ≠ '?')
          let pathname := if path.isEmpty then "/" else String.mk path
          let queryRaw := (afterHost.dropWhile (fun c => c ≠ '?')).drop 1
          let query :=
            if queryRaw.isEmpty ∧ ¬ afterHost.contains '?' then []
            else (queryRaw.splitOn '&').map parseQueryPair
          some ⟨String.mk scheme, String.mk host, pathname, query⟩
      | _ => none
  | [] => none

/-- Serialize one query pair back to `key=value`. -/
def serializeQueryPair (kv : String × String) : String :=
  kv.1 ++ "=" ++ kv.2

/-- Models `URL.prototype.toString` on the same fragment. -/
def serializeUrl (u : UrlObj) : String :=
  u.scheme ++ "://" ++ u.host ++ u.pathname ++
    (if u.query.isEmpty then ""
     else "?" ++ String.intercalate "&" (u.query.map serializeQueryPair))

/-- The tracking query parameters removed by `normalizeUrl`. -/
def paramsToRemove : List String :=
  ["utm_source", "utm_medium", "utm_campaign", "ref", "source"]

/-- `String.prototype.endsWith('/')`: the last character is a slash. -/
def endsWithSlash (s : String) : Bool :=
  match s.toList.getLast? with
  | some c => c = '/'
  | none => false

/-- The component transformation of `normalizeUrl`: delete the tracking
parameters, then strip a trailing slash (`slice(0, -1)`) from the path
unless it is exactly `/`. -/
def normUrlObj (u : UrlObj) : UrlObj :=
  let u1 : UrlObj := { u with query := u.query.filter (fun kv => ¬ paramsToRemove.contains kv.1) }
  let pathname :=
    if u1.pathname ≠ "/" ∧ endsWithSlash u1.pathname then String.mk u1.pathname.toList.dropLast
    else u1.pathname
  { u1 with pathname := pathname }

/-- `DeduplicationService.normalizeUrl`: parse, drop tracking parameters,
strip the trailing slash, re-serialize; on parse failure return the input
unchanged (the source catches the `URL` constructor's exception). -/
def normalizeUrl (url : String) : String :=
  match parseUrl url with
  | none => url
  | some u => serializeUrl (normUrlObj u)

/-! ## Title normalization (`DeduplicationService.normalizeTitle`) -/

/-- JavaScript's `\s` character class (the members relevant to `String`). -/
def isJsSpace (c : Char) : Bool :=
  let n := c.toNat
  n = 0x20 ∨ n = 0x09 ∨ n = 0x0A ∨ n = 0x0B ∨ n = 0x0C ∨ n = 0x0D ∨
  n = 0xA0 ∨ n = 0x1680 ∨ (0x2000 ≤ n ∧ n ≤ 0x200A) ∨ n = 0x2028 ∨
  n = 0x2029 ∨ n = 0x202F ∨ n = 0x205F ∨ n = 0x3000 ∨ n = 0xFEFF

/-- Models `String.prototype.trim` (JS whitespace on both ends). -/
def trimJs (l : List Char) : List Char :=
  ((l.dropWhile isJsSpace).reverse.dropWhile isJsSpace).reverse

/-- The regex `/[Ａ-Ｚａ-ｚ０-９]/` replacement `char → char - 0xFEE0`:
map fullwidth Latin letters and digits to their halfwidth forms. -/
def toHalfwidth (c : Char) : Char :=
  let n := c.toNat
  if (0xFF21 ≤ n ∧ n ≤ 0xFF3A) ∨ (0xFF41 ≤ n ∧ n ≤ 0xFF5A) ∨
     (0xFF10 ≤ n ∧ n ≤ 0xFF19) then Char.ofNat (n - 0xFEE0)
  else c

/-- The regex `/\s+/g → ' '` replacement: collapse runs of JS whitespace to
one space.  The boolean argument records whether the previous character was
whitespace. -/
def collapseWsAux : Bool → List Char → List Char
  | _, [] => []
  | prevSpace, c :: rest =>
    if isJsSpace c then
      if prevSpace then collapseWsAux true rest
      else ' ' :: collapseWsAux true rest
    else c :: collapseWsAux false rest

def collapseWs (l : List Char) : List Char :=
  collapseWsAux false l

/-- The regex `\w` character class: ASCII letters, digits, underscore. -/
def isWordChar (c : Char) : Bool :=
  ('a' ≤ c ∧ c ≤ 'z') ∨ ('A' ≤ c ∧ c ≤ 'Z') ∨ ('0' ≤ c ∧ c ≤ '9') ∨ c = '_'

/-- The character class kept by the strip step
`/[^\w\s぀-ゟ゠-ヿ一-龯]/g → ''`. -/
def keepChar (c : Char) : Bool :=
  isWordChar c ∨ isJsSpace c ∨
  (0x3040 ≤ c.toNat ∧ c.toNat ≤ 0x309F) ∨
  (0x30A0 ≤ c.toNat ∧ c.toNat ≤ 0x30FF) ∨
  (0x4E00 ≤ c.toNat ∧ c.toNat ≤ 0x9FAF)

def isDigitChar (c : Char) : Bool :=
  '0' ≤ c ∧ c ≤ '9'

/-- First separator class `[年\/\-]` of the date regex. -/
def dateSep1 (c : Char) : Bool :=
  c = '年' ∨ c = '/' ∨ c = '-'

/-- Second separator class `[月\/\-]` of the date regex. -/
def dateSep2 (c : Char) : Bool :=
  c = '月' ∨ c = '/' ∨ c = '-'

/-- Match `\d{1,2}` (greedy, with backtracking) followed by a separator from
`sep`; return the remainder after the separator. -/
def matchTwoDigitsSep (sep : Char → Bool) : List Char → Option (List Char)
  | a :: b :: s :: rest =>
    if isDigitChar a ∧ isDigitChar b ∧ sep s then some rest
    else if isDigitChar a ∧ sep b then some (s :: rest)
    else none
  | [a, b] => if isDigitChar a ∧ sep b then some [] else none
  | _ => none

/-- Match the trailing `\d{1,2}[日]?` of the date regex (both greedy). -/
def matchDayEnd : List Char → Option (List Char)
  | a :: b :: rest =>
    if isDigitChar a ∧ isDigitChar b then
      match rest with
      | d :: rest2 => if d = '日' then some rest2 else some rest
      | [] => some []
    else if isDigitChar a then
      if b = '日' then some rest else some (b :: rest)
    else none
  | [a] => if isDigitChar a then some [] else none
  | [] => none

/-- Match the date regex `/\d{4}[年\/\-]\d{1,2}[月\/\-]\d{1,2}[日]?/` at the
head of the list; return the remainder after the match. -/
def matchDate (l : List Char) : Option (List Char) :=
  match l with
  | d1 :: d2 :: d3 :: d4 :: rest =>
    if isDigitChar d1 ∧ isDigitChar d2 ∧ isDigitChar d3 ∧ isDigitChar d4 then
      match rest with
      | s :: rest2 =>
        if dateSep1 s then
          match matchTwoDigitsSep dateSep2 rest2 with
          | some rest3 => matchDayEnd rest3
          | none => none
        else none
      | [] => none
    else none
  | _ => none

/-- Global regex replacement scan for the date regex; the fuel is the input
length (every match consumes at least one character, so this fuel always
suffices and the scan visits each start position once, as the JS `g` flag
does). -/
def replaceDatesAux : Nat → List Char → List Char
  | _, [] => []
  | 0, l => l
  | fuel + 1, c :: rest =>
    match matchDate (c :: rest) with
    | some rem => "YYYY-MM-DD".toList ++ replaceDatesAux fuel rem
    | none => c :: replaceDatesAux fuel rest

def replaceDates (l : List Char) : List Char :=
  replaceDatesAux l.length l

/-- Match `\d+\.\d+(\.\d+)?` (the version regex after its optional `v`). -/
def matchVersionCore (l : List Char) : Option (List Char) :=
  let ds := l.takeWhile isDigitChar
  let r1 := l.dropWhile isDigitChar
  if ds.isEmpty then none
  else
    match r1 with
    | '.' :: r2 =>
      let ds2 := r2.takeWhile isDigitChar
      let r3 := r2.dropWhile isDigitChar
      if ds2.isEmpty then none
      else
        match r3 with
        | '.' :: r4 =>
          let ds3 := r4.takeWhile isDigitChar
          let r5 := r4.dropWhile isDigitChar
          if ds3.isEmpty then some r3 else some r5
        | _ => some r3
    | _ => none

/-- Match the version regex `/v?\d+\.\d+(\.\d+)?/` at the head of the list. -/
def matchVersion (l : List Char) : Option (List Char) :=
  match l with
  | 'v' :: rest =>
    match matchVersionCore rest with
    | some rem => some rem
    | none => matchVersionCore l
  | _ => matchVersionCore l

/-- Global replacement scan for the version regex (fuel as in
`replaceDatesAux`). -/
def replaceVersionsAux : Nat → List Char → List Char
  | _, [] => []
  | 0, l => l
  | fuel + 1, c :: rest =>
    match matchVersion (c :: rest) with
    | some rem => "vX.X.X".toList ++ replaceVersionsAux fuel rem
    | none => c :: replaceVersionsAux fuel rest

def replaceVersions (l : List Char) : List Char :=
  replaceVersionsAux l.length l

/-- `DeduplicationService.normalizeTitle`: lowercase, trim, fullwidth→
halfwidth, collapse whitespace, strip special characters, collapse dates,
collapse version numbers — in exactly the source's order. -/
def normalizeTitle (title : String) : String :=
  let step1 := trimJs (title.toList.map toLowerJs)
  let step2 := step1.map toHalfwidth
  let step3 := collapseWs step2
  let step4 := step3.filter keepChar
  let step5 := replaceDates step4
  let step6 := replaceVersions step5
  String.mk step6

/-! ## Deduplication (`DeduplicationService`) -/

/-- The two seen-sets of a `DeduplicationService` instance.  The JS `Set` is
modelled as a list observed only through membership. -/
structure DedupState where
  seenUrls : List String
  seenTitles : List String
deriving DecidableEq

def emptyDedupState : DedupState := ⟨[], []⟩

/-- `DeduplicationService.clearCache`: empty both seen-sets. -/
def clearCache (_ : DedupState) : DedupState := ⟨[], []⟩

/-- The result of one `deduplicateArticles` call: the kept articles, the
updated seen-sets, and the two duplicate counters the source tracks. -/
structure DedupOutcome where
  kept : List Article
  state : DedupState
  urlDup : Nat
  titleDup : Nat
deriving DecidableEq

/-- `DeduplicationService.deduplicateArticles`: process in arrival order;
drop on seen normalized URL, else on seen normalized title, else record both
and keep. -/
def deduplicateArticles (s : DedupState) : List Article → DedupOutcome
  | [] => ⟨[], s, 0, 0⟩
  | a :: rest =>
    let url := normalizeUrl a.url
    let ntitle := normalizeTitle a.title
    if s.seenUrls.contains url then
      let o := deduplicateArticles s rest
      ⟨o.kept, o.state, o.urlDup + 1, o.titleDup⟩
    else if s.seenTitles.contains ntitle then
      let o := deduplicateArticles s rest
      ⟨o.kept, o.state, o.urlDup, o.titleDup + 1⟩
    else
      let o := deduplicateArticles ⟨url :: s.seenUrls, ntitle :: s.seenTitles⟩ rest
      ⟨a :: o.kept, o.state, o.urlDup, o.titleDup⟩

/-! ## Relevance scoring and filtering (`FilteringService`) -/

structure FilteringCriteria where
  keywords : List String
  excludeKeywords : List String
  minRelevanceScore : ℚ
  maxArticlesPerDay : Nat
deriving DecidableEq

structure KeywordWeight where
  keyword : String
  weight : ℚ
deriving DecidableEq

/-- `FilteringService.AI_KEYWORDS`, weights as exact rationals. -/
def AI_KEYWORDS : List KeywordWeight :=
  [⟨"chatgpt", 1⟩, ⟨"gpt", 1⟩, ⟨"openai", 1⟩, ⟨"claude", 1⟩, ⟨"llm", 1⟩,
   ⟨"大規模言語モデル", 1⟩, ⟨"transformer", 9/10⟩, ⟨"bert", 9/10⟩,
   ⟨"ai", 4/5⟩, ⟨"人工知能", 4/5⟩, ⟨"machine learning", 4/5⟩,
   ⟨"機械学習", 4/5⟩, ⟨"deep learning", 4/5⟩, ⟨"ディープラーニング", 4/5⟩,
   ⟨"neural network", 7/10⟩, ⟨"ニューラルネットワーク", 7/10⟩,
   ⟨"nlp", 3/5⟩, ⟨"自然言語処理", 3/5⟩, ⟨"computer vision", 3/5⟩,
   ⟨"画像認識", 3/5⟩, ⟨"画像生成", 3/5⟩, ⟨"stable diffusion", 7/10⟩,
   ⟨"midjourney", 7/10⟩, ⟨"dalle", 7/10⟩,
   ⟨"pytorch", 1/2⟩, ⟨"tensorflow", 1/2⟩, ⟨"huggingface", 1/2⟩,
   ⟨"rag", 3/5⟩, ⟨"fine-tuning", 1/2⟩, ⟨"embedding", 1/2⟩]

/-- The searchable corpus
`` `${title} ${excerpt || ''} ${tags.join(' ')}`.toLowerCase() ``. -/
def articleText (a : Article) : String :=
  lowerStr (a.title ++ " " ++ a.excerpt.getD "" ++ " " ++ String.intercalate " " a.tags)

/-- `FilteringService.calculateRelevanceScore`, the source's accumulation
loops as folds. -/
def calculateRelevanceScore (article : Article) (customKeywords : List String) : ℚ :=
  let text := articleText article
  let score :=
    AI_KEYWORDS.foldl
      (fun s item => if includesStr text (lowerStr item.keyword) then s + item.weight else s) 0
  let score :=
    customKeywords.foldl
      (fun s kw => if includesStr text (lowerStr kw) then s + 1/2 else s) score
  let titleText := lowerStr article.title
  let titleBonus :=
    AI_KEYWORDS.foldl
      (fun s item => if includesStr titleText (lowerStr item.keyword) then s + item.weight * (3/10) else s) 0
  let tagBonus :=
    article.tags.foldl
      (fun s tag =>
        AI_KEYWORDS.foldl
          (fun s item => if includesStr (lowerStr tag) (lowerStr item.keyword) then s + item.weight * (1/5) else s) s) 0
  let popularityBonus :=
    match article.score with
    | none => 0
    | some p =>
      if p = 0 then 0
      else if p > 100 then 1/5
      else if p > 50 then 1/10
      else if p > 20 then 1/20
      else 0
  min 1 ((score + titleBonus + tagBonus + popularityBonus) / 3)

/-- `FilteringService.containsExcludeKeywords` (the early-return loop as
`List.any`). -/
def containsExcludeKeywords (article : Article) (excludeKeywords : List String) : Bool :=
  if excludeKeywords.isEmpty then false
  else excludeKeywords.any (fun k => includesStr (articleText article) (lowerStr k))

/-- `FilteringService.filterArticles`: score, drop excluded, threshold,
stable descending sort, cap.  The JS `Array.prototype.sort` is stable
(ES2019), modelled by `List.mergeSort`. -/
def filterArticles (articles : List Article) (criteria : FilteringCriteria) : List Article :=
  let articlesWithScore :=
    articles.map (fun a => { a with relevanceScore := calculateRelevanceScore a criteria.keywords })
  let notExcluded :=
    articlesWithScore.filter (fun a => ¬ containsExcludeKeywords a criteria.excludeKeywords)
  let relevant :=
    notExcluded.filter (fun a => criteria.minRelevanceScore ≤ a.relevanceScore)
  let sorted :=
    relevant.mergeSort (fun a b => b.relevanceScore ≤ a.relevanceScore)
  sorted.take criteria.maxArticlesPerDay

/-! ## Retry (`RetryService`) -/

/-- `RetryError` (the spec's RetryExhaustedError): attempt count and last
underlying error. -/
structure RetryError (E : Type) where
  attemptCount : Nat
  lastError : E
deriving DecidableEq

/-- The attempt loop of `RetryService.withRetry`.  `op` gives the outcome of
each 1-indexed attempt; the fuel is the number of attempts still allowed
(`maxRetries + 1` at the top call); `lastError` threads the variable of the
same name.  Also returns how many times the operation was invoked. -/
def retryAttempts {E T : Type} (op : Nat → Except E T) : Nat → Nat → E → Except E T × Nat
  | 0, _, lastError => (Except.error lastError, 0)
  | fuel + 1, attempt, _ =>
    match op attempt with
    | Except.ok v => (Except.ok v, 1)
    | Except.error e =>
      let r := retryAttempts op fuel (attempt + 1) e
      (r.1, r.2 + 1)

/-- `RetryService.withRetry` with `maxRetries` already resolved; `d` models
the initial `new Error('Unknown error')`.  The thrown `RetryError` always
carries `maxRetries + 1`. -/
def withRetry {E T : Type} (op : Nat → Except E T) (maxRetries : Nat) (d : E) :
    Except (RetryError E) T :=
  match (retryAttempts op (maxRetries + 1) 1 d).1 with
  | Except.ok v => Except.ok v
  | Except.error e => Except.error ⟨maxRetries + 1, e⟩

/-- Number of times `withRetry` invokes the operation. -/
def withRetryCount {E T : Type} (op : Nat → Except E T) (maxRetries : Nat) (d : E) : Nat :=
  (retryAttempts op (maxRetries + 1) 1 d).2

/-- The attempt loop of `RetryService.withRetryCondition`: on failure the
predicate is consulted; the loop continues only when
`attempt ≤ maxRetries` and the predicate holds, otherwise it breaks. -/
def retryCondAttempts {E T : Type} (op : Nat → Except E T)
    (shouldRetry : E → Nat → Bool) (maxRetries : Nat) :
    Nat → Nat → E → Except E T × Nat
  | 0, _, lastError => (Except.error lastError, 0)
  | fuel + 1, attempt, _ =>
    match op attempt with
    | Except.ok v => (Except.ok v, 1)
    | Except.error e =>
      if attempt ≤ maxRetries ∧ shouldRetry e attempt then
        let r := retryCondAttempts op shouldRetry maxRetries fuel (attempt + 1) e
        (r.1, r.2 + 1)
      else (Except.error e, 1)

/-- `RetryService.withRetryCondition`.  After the loop breaks (predicate
declined or attempts exhausted) the source throws
`RetryError(maxRetries + 1, lastError)` — the count is the constant
`maxRetries + 1` in every failure path. -/
def withRetryCondition {E T : Type} (op : Nat → Except E T)
    (shouldRetry : E → Nat → Bool) (maxRetries : Nat) (d : E) :
    Except (RetryError E) T :=
  match (retryCondAttempts op shouldRetry maxRetries (maxRetries + 1) 1 d).1 with
  | Except.ok v => Except.ok v
  | Except.error e => Except.error ⟨maxRetries + 1, e⟩

/-- Number of times `withRetryCondition` invokes the operation. -/
def withRetryConditionCount {E T : Type} (op : Nat → Except E T)
    (shouldRetry : E → Nat → Bool) (maxRetries : Nat) (d : E) : Nat :=
  (retryCondAttempts op shouldRetry maxRetries (maxRetries + 1) 1 d).2

/-! ## Orchestrator (`ArticleCollectorService.collectAllArticles`)

The settled outcomes of the parallel `Promise.allSettled` fan-out are the
input: one `(collector name, outcome)` pair per enabled collector.  The
deduplication and filtering stages are passed as `Except`-valued functions
so that an exception raised inside a stage is expressible; the pure
embeddings above instantiate them on the normal path.  The outer
`Except String CollectionResult` models the returned promise: `Except.ok`
is a normal return, `Except.error` would be a propagated exception. -/

/-- `ArticleCollectorService.mergeCollectionResults`: concatenate fulfilled
lists, turn each rejection into a `CollectionError` for its source. -/
def mergeCollectionResults
    (settled : List (String × Except String (List Article))) :
    List Article × List CollectionError :=
  settled.foldl
    (fun acc r =>
      match r.2 with
      | Except.ok arts => (acc.1 ++ arts, acc.2)
      | Except.error e => (acc.1, acc.2 ++ [⟨r.1, e⟩]))
    ([], [])

/-- `ArticleCollectorService.collectAllArticles`: merge, early-return on an
empty merge, deduplicate, filter; the whole body sits in a `try`/`catch`
that converts any exception into a `CollectionError` with source
`"ArticleCollectorService"` and returns normally. -/
def collectAllArticles
    (settled : List (String × Except String (List Article)))
    (dedupStage filterStage : List Article → Except String (List Article)) :
    Except String CollectionResult :=
  let merged := mergeCollectionResults settled
  let body : Except String CollectionResult :=
    if merged.1.isEmpty then Except.ok ⟨[], merged.2⟩
    else
      match dedupStage merged.1 with
      | Except.error e => Except.error e
      | Except.ok unique =>
        match filterStage unique with
        | Except.error e => Except.error e
        | Except.ok filtered => Except.ok ⟨filtered, merged.2⟩
  match body with
  | Except.ok r => Except.ok r
  | Except.error e => Except.ok ⟨[], merged.2 ++ [⟨"ArticleCollectorService", e⟩]⟩

/-- Concrete article builder used by the closed witness statements. -/
def mkArticle (id title url : String) (tags : List String) : Article :=
  ⟨id, title, url, "author", 0, "qiita", tags, none, none, 0⟩

/-! ## Spec-side scoring decompositions (for the refinement claim about
`calculateRelevanceScore`; these follow the spec's words and are compared
with the source embedding above) -/

/-- Spec-side raw score: sum of table weights for matched table keywords
plus 0.5 per matched custom keyword. -/
def specRawScore (a : Article) (custom : List String) : ℚ :=
  ((AI_KEYWORDS.filter (fun i => includesStr (articleText a) (lowerStr i.keyword))).map
    (fun i => i.weight)).sum
  + ((custom.filter (fun kw => includesStr (articleText a) (lowerStr kw))).map
    (fun _ => (1 / 2 : ℚ))).sum

/-- Spec-side title bonus: `weight * 0.3` per table keyword found in the
lowercased title. -/
def specTitleBonus (a : Article) : ℚ :=
  ((AI_KEYWORDS.filter (fun i => includesStr (lowerStr a.title) (lowerStr i.keyword))).map
    (fun i => i.weight * (3 / 10))).sum

/-- Spec-side tag bonus: `weight * 0.2` per table keyword per tag. -/
def specTagBonus (a : Article) : ℚ :=
  (a.tags.map (fun t =>
    ((AI_KEYWORDS.filter (fun i => includesStr (lowerStr t) (lowerStr i.keyword))).map
      (fun i => i.weight * (1 / 5))).sum)).sum

/-- Spec-side popularity bonus: 0.2 above 100, 0.1 above 50, 0.05 above
20, else 0. -/
def specPopularityBonus (a : Article) : ℚ :=
  match a.score with
  | none => 0
  | some p => if p > 100 then 1 / 5 else if p > 50 then 1 / 10 else if p > 20 then 1 / 20 else 0

/-! ## Theorems -/

/-- Helper: the success case of the retry loop, attempts `a .. a+k-1` failing
and attempt `a+k` succeeding. -/
theorem retryAttempts_ok {E T : Type} (op : Nat → Except E T) (v : T) :
    ∀ (k a fuel : Nat) (le : E),
      (∀ i, a ≤ i → i < a + k → ∃ e, op i = Except.error e) →
      op (a + k) = Except.ok v → k < fuel →
      retryAttempts op fuel a le = (Except.ok v, k + 1)
  | 0, a, fuel, le, _, hsucc, hfuel => by
    match fuel, hfuel with
    | fuel + 1, _ =>
      simp only [Nat.add_zero] at hsucc
      simp [retryAttempts, hsucc]
  | k + 1, a, fuel, le, hfail, hsucc, hfuel => by
    match fuel, hfuel with
    | fuel + 1, hfuel =>
      obtain ⟨e, he⟩ := hfail a (Nat.le_refl a) (by omega)
      have ih := retryAttempts_ok op v k (a + 1) fuel e
        (fun i h1 h2 => hfail i (by omega) (by omega))
        (by have hx : a + 1 + k = a + (k + 1) := by omega
            rw [hx]; exact hsucc)
        (by omega)
      simp [retryAttempts, he, ih]

/-- Helper: the all-fail case of the retry loop with `fuel + 1` attempts
allowed: the loop makes all of them and ends with the last error. -/
theorem retryAttempts_allfail {E T : Type} (op : Nat → Except E T) (err : Nat → E) :
    ∀ (fuel a : Nat) (le : E),
      (∀ i, a ≤ i → i < a + (fuel + 1) → op i = Except.error (err i)) →
      retryAttempts op (fuel + 1) a le = (Except.error (err (a + fuel)), fuel + 1)
  | 0, a, le, hfail => by
    have ha := hfail a (Nat.le_refl a) (by omega)
    simp [retryAttempts, ha]
  | fuel + 1, a, le, hfail => by
    have ha := hfail a (Nat.le_refl a) (by omega)
    have ih := retryAttempts_allfail op err fuel (a + 1) (err a)
      (fun i h1 h2 => hfail i (by omega) (by omega))
    have hix : a + 1 + fuel = a + (fuel + 1) := by omega
    rw [hix] at ih
    have step : retryAttempts op (fuel + 1 + 1) a le
        = ((retryAttempts op (fuel + 1) (a + 1) (err a)).1,
           (retryAttempts op (fuel + 1) (a + 1) (err a)).2 + 1) := by
      rw [retryAttempts, ha]
    rw [step, ih]

/-- C2: `withRetry` with `maxRetries = m` returns the success value after
`k + 1` invocations when exactly the first `k ≤ m` attempts fail, and after
`m + 1` failing attempts it fails with a `RetryError` carrying
`attemptCount = m + 1` and the error of the final attempt. -/
theorem withRetry_contract {E T : Type} (op : Nat → Except E T) (m : Nat) (d : E) :
    (∀ (k : Nat) (v : T), k ≤ m →
      (∀ i, 1 ≤ i → i ≤ k → ∃ e, op i = Except.error e) →
      op (k + 1) = Except.ok v →
      withRetry op m d = Except.ok v ∧ withRetryCount op m d = k + 1)
    ∧ (∀ err : Nat → E,
      (∀ i, 1 ≤ i → i ≤ m + 1 → op i = Except.error (err i)) →
      withRetry op m d = Except.error ⟨m + 1, err (m + 1)⟩
        ∧ withRetryCount op m d = m + 1) := by
  constructor
  · intro k v hkm hfail hsucc
    have h := retryAttempts_ok op v k 1 (m + 1) d
      (fun i h1 h2 => hfail i h1 (by omega))
      (by have hx : 1 + k = k + 1 := by omega
          rw [hx]; exact hsucc)
      (by omega)
    simp [withRetry, withRetryCount, h]
  · intro err hfail
    have h := retryAttempts_allfail op err m 1 d
      (fun i h1 h2 => hfail i h1 (by omega))
    have hix : 1 + m = m + 1 := by omega
    rw [hix] at h
    simp [withRetry, withRetryCount, h]

/-- Witness for `withRetry_contract` at concrete inputs: one failure then
success with `maxRetries = 1` gives the value in two invocations; constant
failure with `maxRetries = 2` gives `RetryError 3 "e"` in three. -/
theorem withRetry_contract_witness :
    (withRetry (fun i => if i = 1 then Except.error "e1" else Except.ok 7) 1 "d" = Except.ok 7
      ∧ withRetryCount (fun i => if i = 1 then Except.error "e1" else Except.ok 7) 1 "d" = 2)
    ∧ (withRetry (fun (_ : Nat) => (Except.error "e" : Except String Nat)) 2 "d"
          = Except.error ⟨3, "e"⟩
      ∧ withRetryCount (fun (_ : Nat) => (Except.error "e" : Except String Nat)) 2 "d" = 3) := by
  constructor
  · exact (withRetry_contract (fun i => if i = 1 then Except.error "e1" else Except.ok 7) 1 "d").1
      1 7 (by decide)
      (fun i h1 h2 => ⟨"e1", by have h : i = 1 := Nat.le_antisymm h2 h1; subst h; rfl⟩)
      rfl
  · exact (withRetry_contract (fun (_ : Nat) => (Except.error "e" : Except String Nat)) 2 "d").2
      (fun _ => "e") (fun i h1 h2 => rfl)

/-- Helper: the conditional retry loop stops at attempt `a + r` (the first
attempt at which continuing is refused) and reports that attempt's error;
`r + 1` invocations are made. -/
theorem retryCondAttempts_stop {E T : Type} (op : Nat → Except E T)
    (p : E → Nat → Bool) (m : Nat) (err : Nat → E) :
    ∀ (r a fuel : Nat) (le : E),
      (∀ i, a ≤ i → i ≤ a + r → op i = Except.error (err i)) →
      (∀ i, a ≤ i → i < a + r → (i ≤ m ∧ p (err i) i = true)) →
      ¬(a + r ≤ m ∧ p (err (a + r)) (a + r) = true) →
      r < fuel →
      retryCondAttempts op p m fuel a le = (Except.error (err (a + r)), r + 1)
  | 0, a, fuel, le, hfail, _, hstop, hfuel => by
    match fuel, hfuel with
    | fuel + 1, _ =>
      have ha := hfail a (Nat.le_refl a) (by omega)
      simp only [Nat.add_zero] at hstop
      simp [retryCondAttempts, ha, if_neg hstop]
  | r + 1, a, fuel, le, hfail, hcont, hstop, hfuel => by
    match fuel, hfuel with
    | fuel + 1, hfuel =>
      have ha := hfail a (Nat.le_refl a) (by omega)
      have hc := hcont a (Nat.le_refl a) (by omega)
      have ih := retryCondAttempts_stop op p m err r (a + 1) fuel (err a)
        (fun i h1 h2 => hfail i (by omega) (by omega))
        (fun i h1 h2 => hcont i (by omega) (by omega))
        (by have hx : a + 1 + r = a + (r + 1) := by omega
            rw [hx]; exact hstop)
        (by omega)
      have hix : a + 1 + r = a + (r + 1) := by omega
      rw [hix] at ih
      simp [retryCondAttempts, ha, if_pos hc, ih]

/-- C6 (amended): in `withRetryCondition`, when attempts `1 .. j` fail, the
predicate allows attempts `1 .. j-1` and refuses attempt `j ≤ maxRetries`,
no further attempt is made (exactly `j` invocations), and the call fails
with a `RetryError` whose `attemptCount` is the constant `maxRetries + 1`
(not the number of attempts actually made) and whose `lastError` is the
error of attempt `j`. -/
theorem withRetryCondition_predicate_stop {E T : Type} (op : Nat → Except E T)
    (p : E → Nat → Bool) (m : Nat) (d : E) (err : Nat → E) (j : Nat)
    (hj1 : 1 ≤ j) (hjm : j ≤ m)
    (hfail : ∀ i, 1 ≤ i → i ≤ j → op i = Except.error (err i))
    (hcont : ∀ i, 1 ≤ i → i < j → p (err i) i = true)
    (hstop : p (err j) j = false) :
    withRetryCondition op p m d = Except.error ⟨m + 1, err j⟩
    ∧ withRetryConditionCount op p m d = j := by
  have h := retryCondAttempts_stop op p m err (j - 1) 1 (m + 1) d
    (fun i h1 h2 => hfail i h1 (by omega))
    (fun i h1 h2 => ⟨by omega, hcont i h1 (by omega)⟩)
    (by have hx : 1 + (j - 1) = j := by omega
        rw [hx, hstop]; simp)
    (by omega)
  have hix : 1 + (j - 1) = j := by omega
  rw [hix] at h
  constructor
  · simp [withRetryCondition, h]
  · simp [withRetryConditionCount, h]; omega

/-- Witness for `withRetryCondition_predicate_stop`: first attempt fails,
predicate refuses, `maxRetries = 2`: one invocation, error
`RetryError 3 "x"`. -/
theorem withRetryCondition_predicate_stop_witness :
    withRetryCondition (fun (_ : Nat) => (Except.error "x" : Except String Nat))
        (fun _ _ => false) 2 "d" = Except.error ⟨3, "x"⟩
    ∧ withRetryConditionCount (fun (_ : Nat) => (Except.error "x" : Except String Nat))
        (fun _ _ => false) 2 "d" = 1 :=
  withRetryCondition_predicate_stop (fun _ => Except.error "x") (fun _ _ => false)
    2 "d" (fun _ => "x") 1 (by decide) (by decide)
    (fun i h1 h2 => rfl) (fun i h1 h2 => by omega) rfl

/-- C6 counterexample: with `maxRetries = 3`, an always-failing operation
and a predicate that always refuses, only one attempt is made but the
`RetryError` carries `attemptCount = 4`, not the number of attempts
actually made (1). -/
theorem withRetryCondition_attemptCount_counterexample :
    withRetryCondition (fun (_ : Nat) => (Except.error "boom" : Except String Nat))
        (fun _ _ => false) 3 "d" = Except.error ⟨4, "boom"⟩
    ∧ withRetryConditionCount (fun (_ : Nat) => (Except.error "boom" : Except String Nat))
        (fun _ _ => false) 3 "d" = 1
    ∧ (4 : Nat) ≠ 1 :=
  ⟨rfl, rfl, by decide⟩

/-- C7: on the title `"2024年1月15日 v1.2.3 リリース"` the date collapses to
`YYYY-MM-DD`, but the special-character strip has already removed the dots
of `v1.2.3`, so the version regex (which demands a literal dot) cannot
match and no `vX.X.X` placeholder appears: the result is
`"YYYY-MM-DD v123 リリース"`. -/
theorem normalizeTitle_version_not_collapsed :
    normalizeTitle "2024年1月15日 v1.2.3 リリース" = "YYYY-MM-DD v123 リリース"
    ∧ includesStr (normalizeTitle "2024年1月15日 v1.2.3 リリース") "YYYY-MM-DD" = true
    ∧ includesStr (normalizeTitle "2024年1月15日 v1.2.3 リリース") "vX.X.X" = false :=
  ⟨by decide, by decide, by decide⟩

/-- C8: `normalizeUrl` removes the tracking query parameters
(`utm_source`, `utm_medium`, `utm_campaign`, `ref`, `source`) and strips a
trailing slash from the path unless the path is exactly `/`; in
particular `normalizeUrl "https://a.com/x/?utm_source=y&ref=z"` is
`"https://a.com/x"`. -/
theorem normalizeUrl_contract :
    normalizeUrl "https://a.com/x/?utm_source=y&ref=z" = "https://a.com/x"
    ∧ (∀ u : UrlObj, ∀ kv ∈ (normUrlObj u).query, paramsToRemove.contains kv.1 = false)
    ∧ (∀ u : UrlObj, u.pathname ≠ "/" → endsWithSlash u.pathname = true →
        (normUrlObj u).pathname = String.mk u.pathname.toList.dropLast)
    ∧ (∀ u : UrlObj, u.pathname = "/" → (normUrlObj u).pathname = "/") := by
  refine ⟨by decide, ?_, ?_, ?_⟩
  · intro u kv hkv
    simp only [normUrlObj, List.mem_filter] at hkv
    simpa using hkv.2
  · intro u h1 h2
    simp [normUrlObj, h1, h2]
  · intro u h1
    simp [normUrlObj, h1, endsWithSlash]

/-- Witness for `normalizeUrl_contract`: a surviving query pair is not a
tracking key, and a concrete trailing-slash path is stripped. -/
theorem normalizeUrl_contract_witness :
    paramsToRemove.contains ("a", "b").1 = false
    ∧ (normUrlObj ⟨"https", "h", "/x/", []⟩).pathname = String.mk "/x/".toList.dropLast
    ∧ (normUrlObj ⟨"https", "h", "/", []⟩).pathname = "/" :=
  ⟨normalizeUrl_contract.2.1 ⟨"https", "h", "/p", [("a", "b")]⟩ ("a", "b") (by decide),
   normalizeUrl_contract.2.2.1 ⟨"https", "h", "/x/", []⟩ (by decide) (by decide),
   normalizeUrl_contract.2.2.2 ⟨"https", "h", "/", []⟩ rfl⟩

/-- C10: `normalizeUrl` is total: on a string the URL parser rejects it
returns the input unchanged (such strings exist, e.g. `"not a url"`), so
`deduplicateArticles` handles malformed URLs without failing and
deduplicates them by raw string equality of the URL. -/
theorem normalizeUrl_total_fallback :
    (∀ s, parseUrl s = none → normalizeUrl s = s)
    ∧ parseUrl "not a url" = none
    ∧ (∀ a b : Article, parseUrl a.url = none → b.url = a.url →
        (deduplicateArticles emptyDedupState [a, b]).kept = [a]) := by
  refine ⟨fun s h => by simp [normalizeUrl, h], by decide, ?_⟩
  intro a b ha hab
  have hna : normalizeUrl a.url = a.url := by simp [normalizeUrl, ha]
  have hnb : normalizeUrl b.url = a.url := by rw [hab]; exact hna
  simp [deduplicateArticles, emptyDedupState, hna, hnb]

/-- Witness for `normalizeUrl_total_fallback`: two articles with the same
malformed URL; only the first survives. -/
theorem normalizeUrl_total_fallback_witness :
    (deduplicateArticles emptyDedupState
      [mkArticle "a1" "hello" "not a url" [], mkArticle "b1" "world" "not a url" []]).kept
      = [mkArticle "a1" "hello" "not a url" []] :=
  normalizeUrl_total_fallback.2.2 (mkArticle "a1" "hello" "not a url" [])
    (mkArticle "b1" "world" "not a url" []) (by decide) rfl

/-- Helper: the seen-URL set only grows during a `deduplicateArticles` run. -/
theorem dedup_mono_urls (x : String) :
    ∀ (l : List Article) (s : DedupState), x ∈ s.seenUrls →
      x ∈ (deduplicateArticles s l).state.seenUrls
  | [], _, h => h
  | a :: l, s, h => by
    by_cases h1 : normalizeUrl a.url ∈ s.seenUrls
    · simpa [deduplicateArticles, h1] using dedup_mono_urls x l s h
    · by_cases h2 : normalizeTitle a.title ∈ s.seenTitles
      · simpa [deduplicateArticles, h1, h2] using dedup_mono_urls x l s h
      · simpa [deduplicateArticles, h1, h2] using
          dedup_mono_urls x l
            ⟨normalizeUrl a.url :: s.seenUrls, normalizeTitle a.title :: s.seenTitles⟩
            (List.mem_cons_of_mem _ h)

/-- Helper: the seen-title set only grows during a `deduplicateArticles` run. -/
theorem dedup_mono_titles (x : String) :
    ∀ (l : List Article) (s : DedupState), x ∈ s.seenTitles →
      x ∈ (deduplicateArticles s l).state.seenTitles
  | [], _, h => h
  | a :: l, s, h => by
    by_cases h1 : normalizeUrl a.url ∈ s.seenUrls
    · simpa [deduplicateArticles, h1] using dedup_mono_titles x l s h
    · by_cases h2 : normalizeTitle a.title ∈ s.seenTitles
      · simpa [deduplicateArticles, h1, h2] using dedup_mono_titles x l s h
      · simpa [deduplicateArticles, h1, h2] using
          dedup_mono_titles x l
            ⟨normalizeUrl a.url :: s.seenUrls, normalizeTitle a.title :: s.seenTitles⟩
            (List.mem_cons_of_mem _ h)

/-- Helper: every kept article had a fresh normalized URL and a fresh
normalized title with respect to the state the run started from. -/
theorem dedup_kept_fresh :
    ∀ (l : List Article) (s : DedupState) (a : Article),
      a ∈ (deduplicateArticles s l).kept →
      normalizeUrl a.url ∉ s.seenUrls ∧ normalizeTitle a.title ∉ s.seenTitles
  | [], s, a, h => by simp [deduplicateArticles] at h
  | x :: l, s, a, h => by
    by_cases h1 : normalizeUrl x.url ∈ s.seenUrls
    · simp [deduplicateArticles, h1] at h
      exact dedup_kept_fresh l s a h
    · by_cases h2 : normalizeTitle x.title ∈ s.seenTitles
      · simp [deduplicateArticles, h1, h2] at h
        exact dedup_kept_fresh l s a h
      · simp [deduplicateArticles, h1, h2] at h
        rcases h with h | h
        · subst h
          exact ⟨h1, h2⟩
        · have ih := dedup_kept_fresh l _ a h
          constructor
          · exact fun hc => ih.1 (List.mem_cons_of_mem _ hc)
          · exact fun hc => ih.2 (List.mem_cons_of_mem _ hc)

/-- Helper: every kept article's normalized URL and title are recorded in
the final state of the run. -/
theorem dedup_kept_recorded :
    ∀ (l : List Article) (s : DedupState) (a : Article),
      a ∈ (deduplicateArticles s l).kept →
      normalizeUrl a.url ∈ (deduplicateArticles s l).state.seenUrls
        ∧ normalizeTitle a.title ∈ (deduplicateArticles s l).state.seenTitles
  | [], s, a, h => by simp [deduplicateArticles] at h
  | x :: l, s, a, h => by
    by_cases h1 : normalizeUrl x.url ∈ s.seenUrls
    · simp [deduplicateArticles, h1] at h ⊢
      exact dedup_kept_recorded l s a h
    · by_cases h2 : normalizeTitle x.title ∈ s.seenTitles
      · simp [deduplicateArticles, h1, h2] at h ⊢
        exact dedup_kept_recorded l s a h
      · simp [deduplicateArticles, h1, h2] at h ⊢
        rcases h with h | h
        · subst h
          constructor
          · exact dedup_mono_urls _ l _ (List.mem_cons_self _ _)
          · exact dedup_mono_titles _ l _ (List.mem_cons_self _ _)
        · exact dedup_kept_recorded l _ a h

/-- Helper: if every article in the list has an already-seen normalized URL,
nothing is kept. -/
theorem dedup_drop_all :
    ∀ (l : List Article) (s : DedupState),
      (∀ b ∈ l, normalizeUrl b.url ∈ s.seenUrls) →
      (deduplicateArticles s l).kept = []
  | [], s, _ => rfl
  | b :: l, s, hall => by
    have h1 : normalizeUrl b.url ∈ s.seenUrls := hall b (List.mem_cons_self _ _)
    simp [deduplicateArticles, h1]
    exact dedup_drop_all l s (fun c hc => hall c (List.mem_cons_of_mem _ hc))

/-- Helper: the kept sequence of any run is pairwise distinct in both
normalized URL and normalized title. -/
theorem dedup_kept_pairwise :
    ∀ (l : List Article) (s : DedupState),
      (deduplicateArticles s l).kept.Pairwise
        (fun x y => normalizeUrl x.url ≠ normalizeUrl y.url
          ∧ normalizeTitle x.title ≠ normalizeTitle y.title)
  | [], s => by simp [deduplicateArticles]
  | x :: l, s => by
    by_cases h1 : normalizeUrl x.url ∈ s.seenUrls
    · simpa [deduplicateArticles, h1] using dedup_kept_pairwise l s
    · by_cases h2 : normalizeTitle x.title ∈ s.seenTitles
      · simpa [deduplicateArticles, h1, h2] using dedup_kept_pairwise l s
      · simp only [deduplicateArticles]
        rw [if_neg (by simpa using h1), if_neg (by simpa using h2)]
        refine List.Pairwise.cons ?_ (dedup_kept_pairwise l _)
        intro y hy
        have hf := dedup_kept_fresh l _ y hy
        constructor
        · intro he
          exact hf.1 (by rw [← he]; exact List.mem_cons_self _ _)
        · intro he
          exact hf.2 (by rw [← he]; exact List.mem_cons_self _ _)

/-- C3: `deduplicateArticles` keeps a sequence with pairwise-distinct
normalized URLs and pairwise-distinct normalized titles; when every input
normalizes identically to the first item (fresh instance), exactly the
first item is kept; and the URL check precedes the title check — an
article with an already-seen normalized URL is dropped and counted as a
URL duplicate regardless of its title. -/
theorem deduplicateArticles_contract :
    (∀ (s : DedupState) (l : List Article),
      (deduplicateArticles s l).kept.Pairwise
        (fun x y => normalizeUrl x.url ≠ normalizeUrl y.url
          ∧ normalizeTitle x.title ≠ normalizeTitle y.title))
    ∧ (∀ (a : Article) (l : List Article),
      (∀ b ∈ l, normalizeUrl b.url = normalizeUrl a.url
        ∧ normalizeTitle b.title = normalizeTitle a.title) →
      (deduplicateArticles emptyDedupState (a :: l)).kept = [a])
    ∧ (∀ (s : DedupState) (a : Article) (l : List Article),
      normalizeUrl a.url ∈ s.seenUrls →
      deduplicateArticles s (a :: l) =
        ⟨(deduplicateArticles s l).kept, (deduplicateArticles s l).state,
         (deduplicateArticles s l).urlDup + 1, (deduplicateArticles s l).titleDup⟩) := by
  refine ⟨fun s l => dedup_kept_pairwise l s, ?_, ?_⟩
  · intro a l hall
    have hempty : ¬ normalizeUrl a.url ∈ emptyDedupState.seenUrls := by
      simp [emptyDedupState]
    have hempty2 : ¬ normalizeTitle a.title ∈ emptyDedupState.seenTitles := by
      simp [emptyDedupState]
    simp [deduplicateArticles, hempty, hempty2, emptyDedupState]
    exact dedup_drop_all l _ (fun b hb => by
      rw [(hall b hb).1]; exact List.mem_cons_self _ _)
  · intro s a l h
    simp [deduplicateArticles, h]

/-- Witness for `deduplicateArticles_contract`: two identically-normalizing
articles keep only the first; an article whose normalized URL is already
seen is dropped as a URL duplicate. -/
theorem deduplicateArticles_contract_witness :
    (deduplicateArticles emptyDedupState
        [mkArticle "a1" "Same Title" "https://a.com/x" [],
         mkArticle "a2" "Same Title" "https://a.com/x" []]).kept
      = [mkArticle "a1" "Same Title" "https://a.com/x" []]
    ∧ deduplicateArticles ⟨["https://a.com/x"], []⟩ [mkArticle "a3" "Other" "https://a.com/x" []]
      = ⟨[], ⟨["https://a.com/x"], []⟩, 1, 0⟩ := by
  constructor
  · exact deduplicateArticles_contract.2.1 (mkArticle "a1" "Same Title" "https://a.com/x" [])
      [mkArticle "a2" "Same Title" "https://a.com/x" []] (by decide)
  · exact (deduplicateArticles_contract.2.2 ⟨["https://a.com/x"], []⟩
      (mkArticle "a3" "Other" "https://a.com/x" []) [] (by decide)).trans (by decide)

/-- C9: the deduplication state persists across successive
`deduplicateArticles` calls on the same instance — an article kept by a
first run blocks any article with the same normalized URL or the same
normalized title in a second run started from the first run's final
state — until `clearCache` resets both seen-sets to empty. -/
theorem dedup_state_persists_across_runs :
    (∀ (s : DedupState) (l1 l2 : List Article) (a b : Article),
      a ∈ (deduplicateArticles s l1).kept →
      (normalizeUrl b.url = normalizeUrl a.url
        ∨ normalizeTitle b.title = normalizeTitle a.title) →
      b ∉ (deduplicateArticles (deduplicateArticles s l1).state l2).kept)
    ∧ (∀ s : DedupState, clearCache s = emptyDedupState) := by
  constructor
  · intro s l1 l2 a b ha hnorm hb
    have hrec := dedup_kept_recorded l1 s a ha
    have hfresh := dedup_kept_fresh l2 _ b hb
    rcases hnorm with h | h
    · exact hfresh.1 (by rw [h]; exact hrec.1)
    · exact hfresh.2 (by rw [h]; exact hrec.2)
  · intro s
    rfl

/-- Witness for `dedup_state_persists_across_runs`: an article kept in a
first run makes a same-URL article vanish from a second run on the same
state. -/
theorem dedup_state_persists_across_runs_witness :
    mkArticle "b1" "Second" "https://a.com/x" [] ∉
      (deduplicateArticles
        (deduplicateArticles emptyDedupState
          [mkArticle "a1" "First" "https://a.com/x" []]).state
        [mkArticle "b1" "Second" "https://a.com/x" []]).kept :=
  dedup_state_persists_across_runs.1 emptyDedupState
    [mkArticle "a1" "First" "https://a.com/x" []]
    [mkArticle "b1" "Second" "https://a.com/x" []]
    (mkArticle "a1" "First" "https://a.com/x" [])
    (mkArticle "b1" "Second" "https://a.com/x" [])
    (by decide) (Or.inl rfl)

/-- Helper: a conditional-accumulation fold is the sum over the filtered,
mapped list. -/
theorem foldl_filter_sum {α : Type} (p : α → Bool) (f : α → ℚ) :
    ∀ (l : List α) (init : ℚ),
      l.foldl (fun s x => if p x then s + f x else s) init
        = init + ((l.filter p).map f).sum
  | [], init => by simp
  | x :: l, init => by
    by_cases h : p x
    · simp only [List.foldl_cons, List.filter_cons, h, if_pos, List.map_cons, List.sum_cons]
      rw [foldl_filter_sum p f l (init + f x)]
      ring
    · simp only [List.foldl_cons, List.filter_cons, h, List.map_cons]
      simp only [Bool.false_eq_true, if_neg, ite_false]
      rw [foldl_filter_sum p f l init]

/-- Helper: the nested tag-bonus fold is the sum over tags of per-tag
keyword sums. -/
theorem tag_fold_sum :
    ∀ (tags : List String) (init : ℚ),
      tags.foldl
        (fun s tag =>
          AI_KEYWORDS.foldl
            (fun s item =>
              if includesStr (lowerStr tag) (lowerStr item.keyword) then
                s + item.weight * (1 / 5)
              else s) s) init
        = init + (tags.map (fun t =>
            ((AI_KEYWORDS.filter (fun i => includesStr (lowerStr t) (lowerStr i.keyword))).map
              (fun i => i.weight * (1 / 5))).sum)).sum
  | [], init => by simp
  | t :: ts, init => by
    rw [List.foldl_cons,
      foldl_filter_sum (fun i => includesStr (lowerStr t) (lowerStr i.keyword))
        (fun i => i.weight * (1 / 5)) AI_KEYWORDS init,
      tag_fold_sum ts]
    simp [List.sum_cons]
    ring

/-- Helper: every table weight is nonnegative. -/
theorem AI_KEYWORDS_weights_nonneg : ∀ i ∈ AI_KEYWORDS, 0 ≤ i.weight := by
  intro i hi
  fin_cases hi <;> norm_num

/-- Helper: the source accumulation equals the spec-side decomposition. -/
theorem calculateRelevanceScore_eq (a : Article) (custom : List String) :
    calculateRelevanceScore a custom
      = min 1 ((specRawScore a custom + specTitleBonus a + specTagBonus a
          + specPopularityBonus a) / 3) := by
  unfold calculateRelevanceScore specRawScore specTitleBonus specTagBonus specPopularityBonus
  dsimp only
  rw [foldl_filter_sum (fun i => includesStr (articleText a) (lowerStr i.keyword))
      (fun i => i.weight) AI_KEYWORDS 0,
    foldl_filter_sum (fun kw => includesStr (articleText a) (lowerStr kw))
      (fun _ => (1 / 2 : ℚ)) custom _,
    foldl_filter_sum (fun i => includesStr (lowerStr a.title) (lowerStr i.keyword))
      (fun i => i.weight * (3 / 10)) AI_KEYWORDS 0,
    tag_fold_sum a.tags 0]
  cases a.score with
  | none =>
    dsimp only
    congr 1
    ring
  | some p =>
    dsimp only
    by_cases hp : p = 0
    · subst hp
      norm_num
    · rw [if_neg hp]
      congr 1
      ring

/-- C5: `calculateRelevanceScore` equals
`min 1 ((rawScore + titleBonus + tagBonus + popularityBonus) / 3)` for the
spec-side decomposition of the four components, and the result always lies
in `[0, 1]`. -/
theorem calculateRelevanceScore_contract (a : Article) (custom : List String) :
    calculateRelevanceScore a custom
      = min 1 ((specRawScore a custom + specTitleBonus a + specTagBonus a
          + specPopularityBonus a) / 3)
    ∧ 0 ≤ calculateRelevanceScore a custom
    ∧ calculateRelevanceScore a custom ≤ 1 := by
  have heq := calculateRelevanceScore_eq a custom
  have hraw : 0 ≤ specRawScore a custom := by
    apply add_nonneg
    · apply List.sum_nonneg
      intro q hq
      simp only [List.mem_map] at hq
      obtain ⟨i, hi, rfl⟩ := hq
      exact AI_KEYWORDS_weights_nonneg i (List.mem_of_mem_filter hi)
    · apply List.sum_nonneg
      intro q hq
      simp only [List.mem_map] at hq
      obtain ⟨kw, _, rfl⟩ := hq
      norm_num
  have htitle : 0 ≤ specTitleBonus a := by
    apply List.sum_nonneg
    intro q hq
    simp only [List.mem_map] at hq
    obtain ⟨i, hi, rfl⟩ := hq
    exact mul_nonneg (AI_KEYWORDS_weights_nonneg i (List.mem_of_mem_filter hi)) (by norm_num)
  have htag : 0 ≤ specTagBonus a := by
    apply List.sum_nonneg
    intro q hq
    simp only [List.mem_map] at hq
    obtain ⟨t, _, rfl⟩ := hq
    apply List.sum_nonneg
    intro r hr
    simp only [List.mem_map] at hr
    obtain ⟨i, hi, rfl⟩ := hr
    exact mul_nonneg (AI_KEYWORDS_weights_nonneg i (List.mem_of_mem_filter hi)) (by norm_num)
  have hpop : 0 ≤ specPopularityBonus a := by
    unfold specPopularityBonus
    cases a.score with
    | none => norm_num
    | some p =>
      dsimp only
      split_ifs <;> norm_num
  refine ⟨heq, ?_, ?_⟩
  · rw [heq]
    refine le_min (by norm_num) (div_nonneg (by linarith) (by norm_num))
  · rw [heq]
    exact min_le_left _ _

/-- Helper: a false `containsExcludeKeywords` means no exclude keyword
occurs in the corpus. -/
theorem containsExcludeKeywords_false {a : Article} {excl : List String}
    (h : containsExcludeKeywords a excl = false) :
    ∀ k ∈ excl, includesStr (articleText a) (lowerStr k) = false := by
  intro k hk
  unfold containsExcludeKeywords at h
  by_cases he : excl.isEmpty = true
  · rw [List.isEmpty_iff] at he
    subst he
    simp at hk
  · rw [if_neg he] at h
    simp only [List.any_eq_false] at h
    simpa using h k hk

/-- C4: the Filter/Rank stage keeps no item whose corpus contains an
exclude keyword, keeps only items at or above the score threshold, caps the
output length at `maxArticlesPerDay`, sorts by relevance score descending,
and is stable: for every score value, the output items with that score form
a sublist (same relative order) of the scored input items with that
score. -/
theorem filterArticles_contract (articles : List Article) (criteria : FilteringCriteria) :
    (∀ x ∈ filterArticles articles criteria, ∀ k ∈ criteria.excludeKeywords,
      includesStr (articleText x) (lowerStr k) = false)
    ∧ (∀ x ∈ filterArticles articles criteria,
      criteria.minRelevanceScore ≤ x.relevanceScore)
    ∧ (filterArticles articles criteria).length ≤ criteria.maxArticlesPerDay
    ∧ (filterArticles articles criteria).Pairwise
        (fun x y => y.relevanceScore ≤ x.relevanceScore)
    ∧ (∀ q : ℚ,
      List.Sublist
        ((filterArticles articles criteria).filter (fun x => x.relevanceScore = q))
        ((articles.map (fun a =>
            { a with relevanceScore := calculateRelevanceScore a criteria.keywords })).filter
          (fun x => x.relevanceScore = q))) := by
  have htrans : ∀ (a b c : Article),
      decide (b.relevanceScore ≤ a.relevanceScore) = true →
      decide (c.relevanceScore ≤ b.relevanceScore) = true →
      decide (c.relevanceScore ≤ a.relevanceScore) = true := by
    intro a b c hab hbc
    simp only [decide_eq_true_eq] at hab hbc ⊢
    exact le_trans hbc hab
  have htotal : ∀ (a b : Article),
      (decide (b.relevanceScore ≤ a.relevanceScore)
        || decide (a.relevanceScore ≤ b.relevanceScore)) = true := by
    intro a b
    simp only [Bool.or_eq_true, decide_eq_true_eq]
    exact le_total _ _
  have hfa : filterArticles articles criteria
      = ((((articles.map (fun a =>
            { a with relevanceScore := calculateRelevanceScore a criteria.keywords })).filter
              (fun a => ¬ containsExcludeKeywords a criteria.excludeKeywords)).filter
              (fun a => criteria.minRelevanceScore ≤ a.relevanceScore)).mergeSort
            (fun a b => b.relevanceScore ≤ a.relevanceScore)).take
          criteria.maxArticlesPerDay := rfl
  refine ⟨?_, ?_, ?_, ?_, ?_⟩
  · intro x hx k hk
    rw [hfa] at hx
    have hx1 := List.mem_of_mem_take hx
    rw [List.mem_mergeSort] at hx1
    have hx2 := List.mem_of_mem_filter hx1
    have hx3 := List.of_mem_filter hx2
    have hx4 : containsExcludeKeywords x criteria.excludeKeywords = false := by
      simpa using hx3
    exact containsExcludeKeywords_false hx4 k hk
  · intro x hx
    rw [hfa] at hx
    have hx1 := List.mem_of_mem_take hx
    rw [List.mem_mergeSort] at hx1
    have hx2 := List.of_mem_filter hx1
    simpa using hx2
  · rw [hfa]
    simp only [List.length_take]
    exact min_le_left _ _
  · rw [hfa]
    refine List.Pairwise.sublist (List.take_sublist _ _) ?_
    have := List.sorted_mergeSort htrans htotal
      ((((articles.map (fun a =>
          { a with relevanceScore := calculateRelevanceScore a criteria.keywords })).filter
            (fun a => ¬ containsExcludeKeywords a criteria.excludeKeywords)).filter
            (fun a => criteria.minRelevanceScore ≤ a.relevanceScore)))
    exact this.imp (fun h => of_decide_eq_true h)
  · intro q
    rw [hfa]
    set scored := articles.map (fun a =>
      { a with relevanceScore := calculateRelevanceScore a criteria.keywords }) with hscored
    set notExcluded := scored.filter
      (fun a => ¬ containsExcludeKeywords a criteria.excludeKeywords) with hne
    set relevant := notExcluded.filter
      (fun a => criteria.minRelevanceScore ≤ a.relevanceScore) with hrel
    set fq : Article → Bool := fun x => decide (x.relevanceScore = q) with hfq
    have hc_pair : (relevant.filter fq).Pairwise
        (fun a b => decide (b.relevanceScore ≤ a.relevanceScore) = true) := by
      apply List.pairwise_of_forall_mem_list
      intro x hx y hy
      have hx1 : x.relevanceScore = q := by simpa [hfq] using List.of_mem_filter hx
      have hy1 : y.relevanceScore = q := by simpa [hfq] using List.of_mem_filter hy
      simp [hx1, hy1]
    have h1 : (relevant.filter fq).Sublist
        (relevant.mergeSort (fun a b => b.relevanceScore ≤ a.relevanceScore)) :=
      List.sublist_mergeSort htrans htotal hc_pair (List.filter_sublist _)
    have hcc : (relevant.filter fq).filter fq = relevant.filter fq :=
      List.filter_eq_self.mpr (fun x hx => List.of_mem_filter hx)
    have h3 : (relevant.filter fq).Sublist
        ((relevant.mergeSort (fun a b => b.relevanceScore ≤ a.relevanceScore)).filter fq) := by
      have := h1.filter fq
      rwa [hcc] at this
    have h2 : List.Perm
        ((relevant.mergeSort (fun a b => b.relevanceScore ≤ a.relevanceScore)).filter fq)
        (relevant.filter fq) :=
      (List.mergeSort_perm relevant _).filter fq
    have h4 : (relevant.mergeSort (fun a b => b.relevanceScore ≤ a.relevanceScore)).filter fq
        = relevant.filter fq :=
      (h3.eq_of_length h2.length_eq.symm).symm
    have h5 : ((((relevant.mergeSort (fun a b => b.relevanceScore ≤ a.relevanceScore))).take
          criteria.maxArticlesPerDay).filter fq).Sublist
        ((relevant.mergeSort (fun a b => b.relevanceScore ≤ a.relevanceScore)).filter fq) :=
      (List.take_sublist _ _).filter fq
    rw [h4] at h5
    have h6 : relevant.Sublist scored :=
      (List.filter_sublist _).trans (List.filter_sublist _)
    exact h5.trans (h6.filter fq)

/-- Witness for `filterArticles_contract`: a single zero-scoring article
with permissive criteria survives, the cap holds, and its score is at or
above the threshold. -/
theorem filterArticles_contract_witness :
    (filterArticles [mkArticle "z" "zzz" "u" []] ⟨[], [], 0, 5⟩).length ≤ 5
    ∧ (0 : ℚ) ≤ (mkArticle "z" "zzz" "u" []).relevanceScore := by
  have hscore : calculateRelevanceScore (mkArticle "z" "zzz" "u" []) [] = 0 := by
    rw [calculateRelevanceScore_eq]
    have h1 : AI_KEYWORDS.filter (fun i =>
        includesStr (articleText (mkArticle "z" "zzz" "u" [])) (lowerStr i.keyword)) = [] := by
      decide
    have h2 : AI_KEYWORDS.filter (fun i =>
        includesStr (lowerStr (mkArticle "z" "zzz" "u" []).title) (lowerStr i.keyword)) = [] := by
      decide
    unfold specRawScore specTitleBonus specTagBonus specPopularityBonus
    rw [h1, h2]
    norm_num [mkArticle]
  have hmem : mkArticle "z" "zzz" "u" [] ∈
      filterArticles [mkArticle "z" "zzz" "u" []] ⟨[], [], 0, 5⟩ := by
    have hupd : ({ mkArticle "z" "zzz" "u" [] with
        relevanceScore := calculateRelevanceScore (mkArticle "z" "zzz" "u" []) [] })
        = mkArticle "z" "zzz" "u" [] := by
      rw [hscore]
      rfl
    have h0 : decide ((0 : ℚ) ≤ (mkArticle "z" "zzz" "u" []).relevanceScore) = true := by
      decide
    unfold filterArticles
    dsimp only
    rw [List.map_cons, List.map_nil, hupd]
    simp [containsExcludeKeywords, h0]
  exact ⟨(filterArticles_contract [mkArticle "z" "zzz" "u" []] ⟨[], [], 0, 5⟩).2.2.1,
    (filterArticles_contract [mkArticle "z" "zzz" "u" []] ⟨[], [], 0, 5⟩).2.1
      (mkArticle "z" "zzz" "u" []) hmem⟩

/-- Helper: empty merge — early normal return with the merge errors. -/
theorem collectAll_empty (settled : List (String × Except String (List Article)))
    (d f : List Article → Except String (List Article)) (errs : List CollectionError)
    (hm : mergeCollectionResults settled = ([], errs)) :
    collectAllArticles settled d f = Except.ok ⟨[], errs⟩ := by
  unfold collectAllArticles
  rw [hm]
  simp

/-- Helper: the deduplication stage raises — caught, recorded, normal
return. -/
theorem collectAll_dedup_error (settled : List (String × Except String (List Article)))
    (d f : List Article → Except String (List Article))
    (arts : List Article) (errs : List CollectionError) (e : String)
    (hm : mergeCollectionResults settled = (arts, errs)) (hne : arts ≠ [])
    (hd : d arts = Except.error e) :
    collectAllArticles settled d f
      = Except.ok ⟨[], errs ++ [⟨"ArticleCollectorService", e⟩]⟩ := by
  unfold collectAllArticles
  rw [hm]
  simp [List.isEmpty_iff, hne, hd]

/-- Helper: the filtering stage raises — caught, recorded, normal return. -/
theorem collectAll_filter_error (settled : List (String × Except String (List Article)))
    (d f : List Article → Except String (List Article))
    (arts u : List Article) (errs : List CollectionError) (e : String)
    (hm : mergeCollectionResults settled = (arts, errs)) (hne : arts ≠ [])
    (hd : d arts = Except.ok u) (hf : f u = Except.error e) :
    collectAllArticles settled d f
      = Except.ok ⟨[], errs ++ [⟨"ArticleCollectorService", e⟩]⟩ := by
  unfold collectAllArticles
  rw [hm]
  simp [List.isEmpty_iff, hne, hd, hf]

/-- Helper: both stages succeed — normal return with the filtered articles
and the per-adapter merge errors. -/
theorem collectAll_ok (settled : List (String × Except String (List Article)))
    (d f : List Article → Except String (List Article))
    (arts u fl : List Article) (errs : List CollectionError)
    (hm : mergeCollectionResults settled = (arts, errs)) (hne : arts ≠ [])
    (hd : d arts = Except.ok u) (hf : f u = Except.ok fl) :
    collectAllArticles settled d f = Except.ok ⟨fl, errs⟩ := by
  unfold collectAllArticles
  rw [hm]
  simp [List.isEmpty_iff, hne, hd, hf]

/-- C1 (amended): `collectAllArticles` never propagates an exception — it
always resolves to a `CollectionResult`.  An exception raised by an
orchestration stage (deduplication or filtering) is caught by the
top-level catch and recorded as a `CollectionError` with source
`"ArticleCollectorService"`, the call returning normally with empty
articles; adapter failures are absorbed as per-source `CollectionError`
entries during the merge and the remaining stages still run on the merged
successes. -/
theorem collectAllArticles_contract
    (settled : List (String × Except String (List Article)))
    (dedupStage filterStage : List Article → Except String (List Article)) :
    (∃ r : CollectionResult, collectAllArticles settled dedupStage filterStage = Except.ok r)
    ∧ (∀ arts errs e, mergeCollectionResults settled = (arts, errs) → arts ≠ [] →
        dedupStage arts = Except.error e →
        collectAllArticles settled dedupStage filterStage
          = Except.ok ⟨[], errs ++ [⟨"ArticleCollectorService", e⟩]⟩)
    ∧ (∀ arts errs u e, mergeCollectionResults settled = (arts, errs) → arts ≠ [] →
        dedupStage arts = Except.ok u → filterStage u = Except.error e →
        collectAllArticles settled dedupStage filterStage
          = Except.ok ⟨[], errs ++ [⟨"ArticleCollectorService", e⟩]⟩)
    ∧ (∀ arts errs u fl, mergeCollectionResults settled = (arts, errs) → arts ≠ [] →
        dedupStage arts = Except.ok u → filterStage u = Except.ok fl →
        collectAllArticles settled dedupStage filterStage = Except.ok ⟨fl, errs⟩)
    ∧ (∀ errs, mergeCollectionResults settled = ([], errs) →
        collectAllArticles settled dedupStage filterStage = Except.ok ⟨[], errs⟩) := by
  refine ⟨?_,
    fun arts errs e hm hne hd => collectAll_dedup_error _ _ _ _ _ _ hm hne hd,
    fun arts errs u e hm hne hd hf => collectAll_filter_error _ _ _ _ _ _ _ hm hne hd hf,
    fun arts errs u fl hm hne hd hf => collectAll_ok _ _ _ _ _ _ _ hm hne hd hf,
    fun errs hm => collectAll_empty _ _ _ _ hm⟩
  rcases hmm : mergeCollectionResults settled with ⟨arts, errs⟩
  by_cases hne : arts = []
  · subst hne
    exact ⟨_, collectAll_empty _ _ _ errs hmm⟩
  · cases hd : dedupStage arts with
    | error e => exact ⟨_, collectAll_dedup_error _ _ _ _ _ _ hmm hne hd⟩
    | ok u =>
      cases hf : filterStage u with
      | error e => exact ⟨_, collectAll_filter_error _ _ _ _ _ _ _ hmm hne hd hf⟩
      | ok fl => exact ⟨_, collectAll_ok _ _ _ _ _ _ _ hmm hne hd hf⟩

/-- Witness for `collectAllArticles_contract`: one fulfilled adapter, one
rejected adapter; the rejected one only contributes a `CollectionError`
while the pipeline completes normally with the merged article. -/
theorem collectAllArticles_contract_witness :
    collectAllArticles
        [("Qiita", Except.ok [mkArticle "a1" "t" "https://a.com/x" []]),
         ("Zenn", Except.error "adapter down")]
        (fun l => Except.ok l) (fun l => Except.ok l)
      = Except.ok ⟨[mkArticle "a1" "t" "https://a.com/x" []], [⟨"Zenn", "adapter down"⟩]⟩ :=
  (collectAllArticles_contract
      [("Qiita", Except.ok [mkArticle "a1" "t" "https://a.com/x" []]),
       ("Zenn", Except.error "adapter down")]
      (fun l => Except.ok l) (fun l => Except.ok l)).2.2.2.1
    [mkArticle "a1" "t" "https://a.com/x" []] [⟨"Zenn", "adapter down"⟩]
    [mkArticle "a1" "t" "https://a.com/x" []] [mkArticle "a1" "t" "https://a.com/x" []]
    rfl (by simp) rfl rfl

/-- C1 counterexample: with one fulfilled adapter and a filtering stage
that raises, `collectAllArticles` does not propagate the exception and the
run does not abort: it returns a normal `CollectionResult` whose error
list carries the `ArticleCollectorService` entry. -/
theorem collectAllArticles_propagation_counterexample :
    (¬ ∃ e, collectAllArticles [("Qiita", Except.ok [mkArticle "a1" "t" "u" []])]
        (fun l => Except.ok l)
        (fun _ => Except.error "malformed criteria")
        = Except.error e)
    ∧ collectAllArticles [("Qiita", Except.ok [mkArticle "a1" "t" "u" []])]
        (fun l => Except.ok l)
        (fun _ => Except.error "malformed criteria")
      = Except.ok ⟨[], [⟨"ArticleCollectorService", "malformed criteria"⟩]⟩
    ∧ (fun (_ : List Article) =>
          (Except.error "malformed criteria" : Except String (List Article)))
        [mkArticle "a1" "t" "u" []] = Except.error "malformed criteria" := by
  refine ⟨?_, rfl, rfl⟩
  rintro ⟨e, he⟩
  rw [show collectAllArticles [("Qiita", Except.ok [mkArticle "a1" "t" "u" []])]
      (fun l => Except.ok l) (fun _ => Except.error "malformed criteria")
      = Except.ok ⟨[], [⟨"ArticleCollectorService", "malformed criteria"⟩]⟩ from rfl] at he
  exact Except.noConfusion he
